import Mathlib

/-!
Verification of the qpageview page-layout engine
(`frescobaldi_app/qpageview/layout.py`).

The Python module defines `AbstractPageLayout` and its only concrete
subclass `PageLayout` (which adds an `orientation` field and overrides
`updatePagePositions`).  We flatten the two classes into a single Lean
structure `PageLayout` carrying every field, and translate each method as
a state-passing function.  Mutating methods take and return the layout;
methods that can raise a Python exception return `Except PyErr` (or pair
the result with an `Option PyErr`).

Qt geometry: `QSize`/`QRect` hold machine ints; a default-constructed
`QSize()` is the invalid size (-1, -1); a default-constructed `QRect()`
is the null rectangle (x1, y1, x2, y2) = (0, 0, -1, -1), and
`QRect(x, y, w, h)` stores x2 = x + w - 1, y2 = y + h - 1.  The union
operator and `adjusted` are translated from the Qt 5 sources.  Python
ints are unbounded, so coordinates are modelled as `ℤ` (the claims never
involve 32-bit overflow).

The `Page` objects held by a layout are an external capability (module
`page.py` is not part of this repository slice); the spec describes them
as: natural (untransformed) size, own rotation, own per-axis scale, a
current position and computed size, and operations `computeSize(context)`,
`setPos`, `rect`, `pageSizeF`, `rotation`, `scale`, `zoomForWidth`,
`zoomForHeight`.  Those page operations are modelled from the spec (see
the doc comments below); everything on the layout itself is translated
from the source.
-/

namespace Qpv

/-- Python exceptions that the translated methods can raise. -/
inductive PyErr
  | typeError
  | valueError
  | indexError
  | nameError
deriving DecidableEq

/-- `QSize`: integer width/height. -/
structure QSizeI where
  w : ℤ
  h : ℤ
deriving DecidableEq

/-- `QSize()` default-constructs the invalid size (-1, -1). -/
def QSizeI.invalid : QSizeI := ⟨-1, -1⟩

/-- `QRect` stored as its four coordinates, Qt style:
`QRect(x, y, w, h)` has `x2 = x + w - 1`, `y2 = y + h - 1`. -/
structure QRectI where
  x1 : ℤ
  y1 : ℤ
  x2 : ℤ
  y2 : ℤ
deriving DecidableEq

/-- `QRect()` default-constructs the null rectangle (0, 0, -1, -1). -/
def QRectI.nullRect : QRectI := ⟨0, 0, -1, -1⟩

/-- `QRect.isNull()`: width and height are both 0. -/
def QRectI.isNull (r : QRectI) : Bool :=
  r.x2 = r.x1 - 1 ∧ r.y2 = r.y1 - 1

/-- `QRect.operator|` (union), translated from the Qt 5 sources: a null
operand yields the other operand; otherwise each rectangle is normalised
(`l1/r1` swap when the stored width is negative) and the result takes
componentwise min/max. -/
def QRectI.unite (a b : QRectI) : QRectI :=
  if a.isNull then b
  else if b.isNull then a
  else
    let l1 := if a.x2 - a.x1 + 1 < 0 then a.x2 else a.x1
    let r1 := if a.x2 - a.x1 + 1 < 0 then a.x1 else a.x2
    let t1 := if a.y2 - a.y1 + 1 < 0 then a.y2 else a.y1
    let b1 := if a.y2 - a.y1 + 1 < 0 then a.y1 else a.y2
    let l2 := if b.x2 - b.x1 + 1 < 0 then b.x2 else b.x1
    let r2 := if b.x2 - b.x1 + 1 < 0 then b.x1 else b.x2
    let t2 := if b.y2 - b.y1 + 1 < 0 then b.y2 else b.y1
    let b2 := if b.y2 - b.y1 + 1 < 0 then b.y1 else b.y2
    ⟨min l1 l2, min t1 t2, max r1 r2, max b1 b2⟩

/-- `QRect.adjusted(dx1, dy1, dx2, dy2)`. -/
def QRectI.adjusted (r : QRectI) (dx1 dy1 dx2 dy2 : ℤ) : QRectI :=
  ⟨r.x1 + dx1, r.y1 + dy1, r.x2 + dx2, r.y2 + dy2⟩

/-- `QRect.size()`: `(x2 - x1 + 1, y2 - y1 + 1)`. -/
def QRectI.size (r : QRectI) : QSizeI :=
  ⟨r.x2 - r.x1 + 1, r.y2 - r.y1 + 1⟩

/-- Orientation constants `Horizontal` / `Vertical` from `constants.py`. -/
inductive Orientation
  | horizontal
  | vertical
deriving DecidableEq

/-- A page, as consumed by the layout: natural (untransformed) size
`pageSizeF()` and per-axis scale `scale()` are real-valued (`QSizeF` /
`QPointF`, modelled as `ℚ`), `rotation()` counts quarter turns, and the
current position / computed size are integer (`QPoint` / `QSize`). -/
structure Page where
  natW : ℚ
  natH : ℚ
  rotation : ℕ
  scaleX : ℚ
  scaleY : ℚ
  posX : ℤ
  posY : ℤ
  w : ℤ
  h : ℤ
deriving DecidableEq

/-- Modelled from the spec: the Page capability's "current rect
(position + computed size)", i.e. `QRect(self.pos(), self.size())`. -/
def Page.rect (p : Page) : QRectI :=
  ⟨p.posX, p.posY, p.posX + p.w - 1, p.posY + p.h - 1⟩

/-- The layout state: `AbstractPageLayout.__init__` fields plus the
`PageLayout` subclass's `_orientation`.  `_scale` and `_dpi` are
`QPointF`s, stored componentwise. -/
structure PageLayout where
  pages : List Page
  size : QSizeI
  margin : ℤ
  spacing : ℤ
  zoomFactor : ℚ
  scaleX : ℚ
  scaleY : ℚ
  dpiX : ℚ
  dpiY : ℚ
  rotation : ℕ
  orientation : Orientation
deriving DecidableEq

namespace PageLayout

/-- `PageLayout()`: empty pages, invalid size, margin 4, spacing 8,
zoom 1.0, scale (1, 1), dpi (72, 72), rotation `Rotate_0`, orientation
`Vertical`. -/
def init : PageLayout :=
  { pages := []
    size := QSizeI.invalid
    margin := 4
    spacing := 8
    zoomFactor := 1
    scaleX := 1
    scaleY := 1
    dpiX := 72
    dpiY := 72
    rotation := 0
    orientation := Orientation.vertical }

/-- `count()` / `__len__`. -/
def count (l : PageLayout) : ℕ := l.pages.length

/-- `__bool__`: returns `True` unconditionally (even for an empty
layout). -/
def toBool (_l : PageLayout) : Bool := true

/-- `setSize(size)`. -/
def setSize (l : PageLayout) (size : QSizeI) : PageLayout :=
  { l with size := size }

/-- `setZoomFactor(zoom)`. -/
def setZoomFactor (l : PageLayout) (zoom : ℚ) : PageLayout :=
  { l with zoomFactor := zoom }

/-- `dpi()`: returns the stored dpi pair. -/
def dpi (l : PageLayout) : ℚ × ℚ := (l.dpiX, l.dpiY)

/-- `setDpi(dpi)`: the body is `self._dpi = xdpi, ydpi or xdpi`, but no
name `xdpi` or `ydpi` is bound anywhere in the method (its only
parameter is `dpi`), so evaluating the right-hand side raises `NameError`
before anything is stored. -/
def setDpi (_l : PageLayout) (_dpi : ℚ × ℚ) : Except PyErr PageLayout :=
  Except.error PyErr.nameError

end PageLayout

/-- Python's `list.remove(x)`: remove the first element equal to `x`;
`none` when `x` does not occur (the `ValueError` case). -/
def listRemoveFirst (x : Page) : List Page → Option (List Page)
  | [] => none
  | y :: ys => if y = x then some ys else (listRemoveFirst x ys).map (y :: ·)

/-- Python's `list.index(x)`: position of the first element equal to
`x`, `ValueError` when absent. -/
def listIndexOf (x : Page) : List Page → Except PyErr ℕ
  | [] => Except.error PyErr.valueError
  | y :: ys => if y = x then Except.ok 0 else (listIndexOf x ys).map (· + 1)

/-- Python's `list.pop(i)` where the argument may be `None` (the default
of `AbstractPageLayout.pop`): `list.pop(None)` raises
`TypeError: 'NoneType' object cannot be interpreted as an integer`;
an integer argument is wrapped once if negative and raises `IndexError`
when out of range, otherwise the element is removed and returned. -/
def listPyPop (xs : List Page) : Option ℤ → Except PyErr (Page × List Page)
  | none => Except.error PyErr.typeError
  | some i =>
    let j : ℤ := if i < 0 then i + xs.length else i
    if h : 0 ≤ j ∧ j < xs.length then
      let k : ℕ := j.toNat
      Except.ok (xs.get ⟨k, by omega⟩, xs.take k ++ xs.drop (k + 1))
    else Except.error PyErr.indexError

namespace PageLayout

/-- `remove(page)`: `self._pages.remove(page)`.  The first component is
the raised exception, if any; `list.remove` raises before mutating, so
the layout is returned unchanged in that case. -/
def remove (l : PageLayout) (p : Page) : Option PyErr × PageLayout :=
  match listRemoveFirst p l.pages with
  | some ps => (none, { l with pages := ps })
  | none => (some PyErr.valueError, l)

/-- `index(page)`: `self._pages.index(page)`. -/
def index (l : PageLayout) (p : Page) : Except PyErr ℕ :=
  listIndexOf p l.pages

/-- `pop(index=None)`: `page = self._pages.pop(index)`.  Note the `None`
default is passed straight to `list.pop`. -/
def pop (l : PageLayout) (i : Option ℤ) : Except PyErr (Page × PageLayout) :=
  (listPyPop l.pages i).map fun r => (r.1, { l with pages := r.2 })

end PageLayout

/-- Floor of the rational `a / b` for `b > 0`, used to round spec-modelled
real-valued sizes to device pixels. -/
def ratHalfUp (q : ℚ) : ℤ :=
  Int.fdiv (2 * q.num + q.den) (2 * q.den)

/-- Modelled from the spec: the Page capability's `computeSize(context)`
(`page.py` is not part of this repository slice).  Per the spec, this is
where the layout's zoom, scale, dpi and rotation take effect on the
page's rendered size: each axis of the natural size is scaled by the
page's own per-axis scale, the layout's per-axis scale, the layout dpi
relative to the 72 dpi reference, and the zoom factor; the two axes are
swapped when the composed page+layout rotation is an odd multiple of
90°, and the result is rounded to an integer `QSize`.  Only the page's
intrinsic attributes and the layout parameters are read; the current
position and previously computed size do not enter. -/
def Page.computeSizeFromLayout (l : PageLayout) (p : Page) : Page :=
  let wq := p.natW * p.scaleX * l.scaleX * (l.dpiX / 72) * l.zoomFactor
  let hq := p.natH * p.scaleY * l.scaleY * (l.dpiY / 72) * l.zoomFactor
  if (p.rotation + l.rotation) % 2 = 1 then
    { p with w := ratHalfUp hq, h := ratHalfUp wq }
  else
    { p with w := ratHalfUp wq, h := ratHalfUp hq }

/-- Modelled from the spec: the Page capability's
`zoomForWidth(context, width)` (`page.py` is not part of this repository
slice).  Per the spec it returns the zoom factor that makes the page's
rendered width equal the target width: the target divided by the page's
rendered width at zoom 1 (natural size under page scale, layout scale
and dpi, axes swapped for an odd composed rotation). -/
def Page.zoomForWidth (p : Page) (l : PageLayout) (width : ℤ) : ℚ :=
  let base :=
    if (p.rotation + l.rotation) % 2 = 1 then
      p.natH * p.scaleY * l.scaleY * (l.dpiY / 72)
    else
      p.natW * p.scaleX * l.scaleX * (l.dpiX / 72)
  (width : ℚ) / base

/-- Modelled from the spec: the Page capability's
`zoomForHeight(context, height)`, symmetric to `zoomForWidth`. -/
def Page.zoomForHeight (p : Page) (l : PageLayout) (height : ℤ) : ℚ :=
  let base :=
    if (p.rotation + l.rotation) % 2 = 1 then
      p.natW * p.scaleX * l.scaleX * (l.dpiX / 72)
    else
      p.natH * p.scaleY * l.scaleY * (l.dpiY / 72)
  (height : ℚ) / base

/-- Python's `max(xs, default=d)` over integers (any evaluation order,
`max` is associative and commutative). -/
def maxDefault (xs : List ℤ) (d : ℤ) : ℤ :=
  match xs with
  | [] => d
  | x :: rest => rest.foldl max x

namespace PageLayout

/-- The key function inside `widestPage`: natural width times the page's
x-scale, except that an odd composed rotation (`(page.rotation() +
self.rotation()) & 1`, i.e. parity of the quarter-turn count) swaps the
axes to natural height times y-scale. -/
def widestKey (l : PageLayout) (p : Page) : ℚ :=
  if (p.rotation + l.rotation) % 2 = 1 then p.natH * p.scaleY
  else p.natW * p.scaleX

/-- The key function inside `highestPage`, symmetric to `widestKey`. -/
def highestKey (l : PageLayout) (p : Page) : ℚ :=
  if (p.rotation + l.rotation) % 2 = 1 then p.natW * p.scaleX
  else p.natH * p.scaleY

end PageLayout

/-- Python's `max(iterable, key=key)`: scan left to right, replacing the
candidate only on a strictly larger key (ties keep the earlier
element). -/
def pyMaxBy (key : Page → ℚ) (p : Page) (ps : List Page) : Page :=
  ps.foldl (fun best q => if key best < key q then q else best) p

namespace PageLayout

/-- `widestPage()`: `None` when `count()` is falsy, else
`max(self, key=key)`. -/
def widestPage (l : PageLayout) : Option Page :=
  if l.count ≠ 0 then
    match l.pages with
    | [] => none
    | p :: ps => some (pyMaxBy (l.widestKey) p ps)
  else none

/-- `highestPage()`: `None` when `count()` is falsy, else
`max(self, key=key)`. -/
def highestPage (l : PageLayout) : Option Page :=
  if l.count ≠ 0 then
    match l.pages with
    | [] => none
    | p :: ps => some (pyMaxBy (l.highestKey) p ps)
  else none

/-- `zoomFitWidth(width)`:
`self.widestPage().zoomForWidth(self, width - self.margin() * 2)`.
(When the layout is empty, Python would raise `AttributeError` on
`None`; `fit` only calls this with a non-empty collection, and we return
the junk value 0 in that unreached case.) -/
def zoomFitWidth (l : PageLayout) (width : ℤ) : ℚ :=
  match l.widestPage with
  | some p => p.zoomForWidth l (width - l.margin * 2)
  | none => 0

/-- `zoomFitHeight(height)`:
`self.highestPage().zoomForHeight(self, height - self.margin() * 2)`. -/
def zoomFitHeight (l : PageLayout) (height : ℤ) : ℚ :=
  match l.highestPage with
  | some p => p.zoomForHeight l (height - l.margin * 2)
  | none => 0

end PageLayout

/-- `FitWidth` bit of the view-mode bitmask (`constants.py`). -/
def FitWidth : ℕ := 1

/-- `FitHeight` bit of the view-mode bitmask (`constants.py`). -/
def FitHeight : ℕ := 2

/-- Python's `min` of a non-empty list (ties keep the earlier element);
`min([])` raises `ValueError`. -/
def pyMinList : List ℚ → Except PyErr ℚ
  | [] => Except.error PyErr.valueError
  | z :: zs => Except.ok (zs.foldl min z)

namespace PageLayout

/-- `fit(size, mode)`: no-op unless `mode` is truthy and the page list
is non-empty; collects `zoomFitWidth` when the `FitWidth` bit is set and
`zoomFitHeight` when the `FitHeight` bit is set, then
`self.setZoomFactor(min(zoomfactors))` (so a non-zero mode with neither
bit set would raise `ValueError` from `min([])`). -/
def fit (l : PageLayout) (size : QSizeI) (mode : ℕ) : Except PyErr PageLayout :=
  if mode ≠ 0 ∧ l.pages ≠ [] then
    let zoomfactors : List ℚ :=
      (if mode &&& FitWidth ≠ 0 then [l.zoomFitWidth size.w] else []) ++
      (if mode &&& FitHeight ≠ 0 then [l.zoomFitHeight size.h] else [])
    (pyMinList zoomfactors).map l.setZoomFactor
  else Except.ok l

/-- `updatePageSizes()`: ask every page to compute its own size with the
layout as context. -/
def updatePageSizes (l : PageLayout) : PageLayout :=
  { l with pages := l.pages.map (Page.computeSizeFromLayout l) }

end PageLayout

/-- The per-page loop of `PageLayout.updatePagePositions`, Vertical
branch: centre each page horizontally in `width`
(`QPoint((width - page.width()) / 2, top)`; the true division produces
an exact half-integer float which PyQt5 converts to a C int by
truncation toward zero, `Int.tdiv`), place it at the running `top`
cursor, then advance the cursor by `page.height() + self._spacing`. -/
def placeVert (s width : ℤ) : ℤ → List Page → List Page
  | _, [] => []
  | top, p :: ps =>
    { p with posX := Int.tdiv (width - p.w) 2, posY := top } ::
      placeVert s width (top + p.h + s) ps

/-- The per-page loop of `PageLayout.updatePagePositions`, Horizontal
branch, symmetric to `placeVert`. -/
def placeHoriz (s height : ℤ) : ℤ → List Page → List Page
  | _, [] => []
  | left, p :: ps =>
    { p with posX := left, posY := Int.tdiv (height - p.h) 2 } ::
      placeHoriz s height (left + p.w + s) ps

namespace PageLayout

/-- The new page list computed by `PageLayout.updatePagePositions`:
Vertical takes `width = max((p.width() for p in self), default=0) +
self._margin * 2` and stacks from `top = self._margin`; Horizontal is
symmetric. -/
def positionedPages (l : PageLayout) : List Page :=
  if l.orientation = Orientation.vertical then
    placeVert l.spacing (maxDefault (l.pages.map Page.w) 0 + l.margin * 2)
      l.margin l.pages
  else
    placeHoriz l.spacing (maxDefault (l.pages.map Page.h) 0 + l.margin * 2)
      l.margin l.pages

/-- `PageLayout.updatePagePositions()` (the concrete override). -/
def updatePagePositions (l : PageLayout) : PageLayout :=
  { l with pages := l.positionedPages }

/-- `computeSize()`: union all page rects starting from a null `QRect()`,
expand by the margin via `adjusted(-m, -m, m, m)`, take the size,
compare with the stored size, store the new size, and return whether it
changed. -/
def computeSize (l : PageLayout) : Bool × PageLayout :=
  let r := l.pages.foldl (fun r p => r.unite p.rect) QRectI.nullRect
  let m := l.margin
  let size := (r.adjusted (-m) (-m) m m).size
  let changed := decide (l.size ≠ size)
  (changed, l.setSize size)

/-- `update()`: `updatePageSizes`, then `updatePagePositions`, then
return `computeSize()`'s changed flag (with the new state). -/
def update (l : PageLayout) : Bool × PageLayout :=
  (l.updatePageSizes.updatePagePositions).computeSize

/-- The size the spec describes for `computeSize`: the union bounding
rectangle over all page rects, expanded by `margin` on every side,
stated independently of the Qt fold as min/max over the page
coordinates (an empty layout degenerates to `(2*margin, 2*margin)`). -/
def specBoundingSize (l : PageLayout) : QSizeI :=
  match l.pages with
  | [] => ⟨2 * l.margin, 2 * l.margin⟩
  | p :: ps =>
    let xlo := (ps.map Page.posX).foldl min p.posX
    let ylo := (ps.map Page.posY).foldl min p.posY
    let xhi := (ps.map (fun q => q.posX + q.w - 1)).foldl max (p.posX + p.w - 1)
    let yhi := (ps.map (fun q => q.posY + q.h - 1)).foldl max (p.posY + p.h - 1)
    ⟨xhi - xlo + 1 + 2 * l.margin, yhi - ylo + 1 + 2 * l.margin⟩

end PageLayout

/-! Concrete fixtures used by the witness theorems. -/

/-- A 100×200 page at rest (no rotation, unit scale, position and
computed size still zero). -/
def pgA : Page := ⟨100, 200, 0, 1, 1, 0, 0, 0, 0⟩

/-- A 150×150 page at rest. -/
def pgB : Page := ⟨150, 150, 0, 1, 1, 0, 0, 0, 0⟩

/-- A 100×100 page at rest. -/
def pgC : Page := ⟨100, 100, 0, 1, 1, 0, 0, 0, 0⟩

/-- A freshly constructed layout holding the three fixture pages. -/
def layout3 : PageLayout :=
  { PageLayout.init with pages := [pgA, pgB, pgC] }

/-- A freshly constructed layout holding one fixture page. -/
def layout1 : PageLayout :=
  { PageLayout.init with pages := [pgA] }

/-- A page that already carries a position and a positive computed
size. -/
def pgSized : Page := ⟨100, 200, 0, 1, 1, 3, 5, 10, 20⟩

/-- A layout holding one positioned, sized page. -/
def layoutSized : PageLayout :=
  { PageLayout.init with pages := [pgSized] }

/-! ## Theorems -/

/-- C10: the boolean conversion of a layout (`__bool__`) is `True` for
every layout state, including the freshly constructed empty layout with
`count() = 0`, so truthiness never indicates non-emptiness. -/
theorem C10_bool_always_true :
    (∀ l : PageLayout, l.toBool = true) ∧
    PageLayout.init.toBool = true ∧ PageLayout.init.count = 0 :=
  ⟨fun _ => rfl, rfl, rfl⟩

/-- C6 (counterexample): `setDpi` never stores anything — its body
references the unbound names `xdpi`/`ydpi` and raises `NameError` on
every call, so the `setDpi`/`dpi` pair cannot round-trip. -/
theorem C6_setDpi_raises_nameError :
    PageLayout.init.setDpi (96, 96) = Except.error PyErr.nameError ∧
    PageLayout.init.dpi = (72, 72) :=
  ⟨rfl, rfl⟩

/-- On an empty page list both positioning branches produce the empty
list. -/
lemma positionedPages_nil (l : PageLayout) (hp : l.pages = []) :
    l.positionedPages = [] := by
  unfold PageLayout.positionedPages
  rw [hp]
  split <;> rfl

/-- `computeSize` on an empty page list: the null `QRect` expanded by
the margin has size `(2*margin, 2*margin)`. -/
lemma computeSize_nil (l : PageLayout) (hp : l.pages = []) :
    l.computeSize =
      (decide (l.size ≠ ⟨2 * l.margin, 2 * l.margin⟩),
       l.setSize ⟨2 * l.margin, 2 * l.margin⟩) := by
  have h : (QRectI.nullRect.adjusted (-l.margin) (-l.margin) l.margin
      l.margin).size = ⟨2 * l.margin, 2 * l.margin⟩ := by
    simp only [QRectI.adjusted, QRectI.size, QRectI.nullRect, QSizeI.mk.injEq]
    constructor <;> ring
  simp only [PageLayout.computeSize, hp, List.foldl_nil, h]

/-- C8: for an empty layout with the unset initial size, `widestPage()`
returns none, `update()` stores the size `(2*margin, 2*margin)`,
and `computeSize()` returns true on the first call and false on an
immediately repeated call. -/
theorem C8_empty_layout (l : PageLayout) (hp : l.pages = [])
    (hs : l.size = QSizeI.invalid) :
    l.widestPage = none ∧
    (l.update).2.size = ⟨2 * l.margin, 2 * l.margin⟩ ∧
    (l.computeSize).1 = true ∧
    ((l.computeSize).2.computeSize).1 = false := by
  have hm : QSizeI.invalid ≠ (⟨2 * l.margin, 2 * l.margin⟩ : QSizeI) := by
    intro h
    rw [QSizeI.invalid, QSizeI.mk.injEq] at h
    omega
  refine ⟨?_, ?_, ?_, ?_⟩
  · simp [PageLayout.widestPage, PageLayout.count, hp]
  · have h1 : l.updatePageSizes.updatePagePositions.pages = [] := by
      have : l.updatePageSizes.pages = [] := by
        simp [PageLayout.updatePageSizes, hp]
      simp [PageLayout.updatePagePositions,
        positionedPages_nil _ this]
    rw [PageLayout.update, computeSize_nil _ h1]
    rfl
  · rw [computeSize_nil _ hp, hs]
    simp [hm]
  · rw [computeSize_nil _ hp]
    have h2 : (l.setSize ⟨2 * l.margin, 2 * l.margin⟩).pages = [] := hp
    rw [computeSize_nil _ h2]
    simp [PageLayout.setSize]

/-- C8 witness: the freshly constructed layout (margin 4) instantiates
the hypotheses; its first `computeSize` reports a change to `(8, 8)` and
the repeated call reports none. -/
theorem C8_empty_layout_witness :
    PageLayout.init.pages = [] ∧ PageLayout.init.size = QSizeI.invalid ∧
    (PageLayout.init.widestPage = none ∧
     (PageLayout.init.update).2.size =
       ⟨2 * PageLayout.init.margin, 2 * PageLayout.init.margin⟩ ∧
     (PageLayout.init.computeSize).1 = true ∧
     ((PageLayout.init.computeSize).2.computeSize).1 = false) :=
  ⟨rfl, rfl, C8_empty_layout PageLayout.init rfl rfl⟩

/-- Joint characterisation of `list.remove` and `list.index`: on an
absent element both fail; on a present element the list splits around
the first occurrence. -/
lemma removeFirst_indexOf (x : Page) (xs : List Page) :
    (x ∉ xs → listRemoveFirst x xs = none ∧
       listIndexOf x xs = Except.error PyErr.valueError) ∧
    (x ∈ xs → ∃ as bs, xs = as ++ x :: bs ∧ x ∉ as ∧
       listRemoveFirst x xs = some (as ++ bs) ∧
       listIndexOf x xs = Except.ok as.length) := by
  induction xs with
  | nil => simp [listRemoveFirst, listIndexOf]
  | cons y ys ih =>
    constructor
    · intro hx
      have hxy : ¬ y = x := by
        rintro rfl
        exact hx (List.mem_cons_self _ _)
      have hx' : x ∉ ys := fun h => hx (List.mem_cons_of_mem _ h)
      simp [listRemoveFirst, listIndexOf, hxy, (ih.1 hx').1, (ih.1 hx').2,
        Except.map]
    · intro hx
      by_cases hxy : y = x
      · subst hxy
        exact ⟨[], ys, rfl, by simp, by simp [listRemoveFirst],
          by simp [listIndexOf]⟩
      · have hx' : x ∈ ys := by
          rcases List.mem_cons.mp hx with h | h
          · exact absurd h.symm hxy
          · exact h
        obtain ⟨as, bs, he, hna, hr, hi⟩ := ih.2 hx'
        refine ⟨y :: as, bs, by simp [he], ?_, ?_, ?_⟩
        · intro h
          rcases List.mem_cons.mp h with h | h
          · exact hxy h.symm
          · exact hna h
        · simp [listRemoveFirst, hxy, hr]
        · simp [listIndexOf, hxy, hi, Except.map]

/-- C9: `remove(page)` and `index(page)` raise `ValueError` exactly when
the page is absent, leaving the page sequence unchanged in that case;
when the page is present, `remove` deletes the first occurrence and
`index` returns its position. -/
theorem C9_remove_index_notFound (l : PageLayout) (p : Page) :
    ((l.remove p).1 = some PyErr.valueError ↔ p ∉ l.pages) ∧
    ((l.remove p).1 ≠ none → (l.remove p).2 = l) ∧
    (l.index p = Except.error PyErr.valueError ↔ p ∉ l.pages) ∧
    (p ∈ l.pages → ∃ as bs, l.pages = as ++ p :: bs ∧ p ∉ as ∧
       (l.remove p).1 = none ∧ (l.remove p).2.pages = as ++ bs ∧
       l.index p = Except.ok as.length) := by
  by_cases hp : p ∈ l.pages
  · obtain ⟨as, bs, he, hna, hr, hi⟩ := (removeFirst_indexOf p l.pages).2 hp
    refine ⟨?_, ?_, ?_, fun _ => ⟨as, bs, he, hna, ?_, ?_, hi⟩⟩
    · simp [PageLayout.remove, hr, hp]
    · intro h
      simp [PageLayout.remove, hr] at h
    · simp [PageLayout.index, hi, hp]
    · simp [PageLayout.remove, hr]
    · simp [PageLayout.remove, hr]
  · obtain ⟨hr, hi⟩ := (removeFirst_indexOf p l.pages).1 hp
    refine ⟨?_, ?_, ?_, fun h => absurd h hp⟩
    · simp [PageLayout.remove, hr, hp]
    · intro _
      simp [PageLayout.remove, hr]
    · simp [PageLayout.index, hi, hp]

/-- C9 witness: `pgA` occurs in `layout1`, and removing it deletes that
occurrence while `index` reports its position. -/
theorem C9_remove_index_notFound_witness :
    pgA ∈ layout1.pages ∧
    (∃ as bs, layout1.pages = as ++ pgA :: bs ∧ pgA ∉ as ∧
       (layout1.remove pgA).1 = none ∧
       (layout1.remove pgA).2.pages = as ++ bs ∧
       layout1.index pgA = Except.ok as.length) :=
  ⟨List.mem_cons_self pgA [],
   (C9_remove_index_notFound layout1 pgA).2.2.2
     (List.mem_cons_self pgA [])⟩

/-- Python's `max(iterable, key=key)` returns an element of the
iterable whose key is maximal. -/
lemma pyMaxBy_spec (key : Page → ℚ) (p : Page) (ps : List Page) :
    pyMaxBy key p ps ∈ p :: ps ∧
    ∀ q ∈ p :: ps, key q ≤ key (pyMaxBy key p ps) := by
  induction ps generalizing p with
  | nil => simp [pyMaxBy]
  | cons r rs ih =>
    have hstep : pyMaxBy key p (r :: rs) =
        pyMaxBy key (if key p < key r then r else p) rs := rfl
    obtain ⟨hmem, hmax⟩ := ih (if key p < key r then r else p)
    rw [hstep]
    constructor
    · rcases List.mem_cons.mp hmem with h | h
      · rw [h]
        split <;> simp
      · simp [h]
    · intro q hq
      have hp : key p ≤ key (if key p < key r then r else p) := by
        split <;> simp_all [le_of_lt]
      have hr : key r ≤ key (if key p < key r then r else p) := by
        split
        · simp
        · simp_all [le_of_not_lt]
      have htop := hmax _ (List.mem_cons_self _ _)
      rcases List.mem_cons.mp hq with h | h
      · subst h
        exact le_trans hp htop
      · rcases List.mem_cons.mp h with h' | h'
        · subst h'
          exact le_trans hr htop
        · exact hmax q (List.mem_cons_of_mem _ h')

/-- C4: `widestPage()`/`highestPage()` return none exactly for an empty
layout; a returned page belongs to the collection and its effective
extent — natural width times its own x-scale, with the axes swapped to
natural height times its own y-scale when the composed page+layout
rotation is an odd multiple of 90° (symmetrically for `highestPage`) —
is at least that of every page. -/
theorem C4_extremal_pages (l : PageLayout) :
    (l.widestPage = none ↔ l.pages = []) ∧
    (l.highestPage = none ↔ l.pages = []) ∧
    (∀ p, l.widestPage = some p → p ∈ l.pages ∧ ∀ q ∈ l.pages,
       (if (q.rotation + l.rotation) % 2 = 1 then q.natH * q.scaleY
        else q.natW * q.scaleX) ≤
       (if (p.rotation + l.rotation) % 2 = 1 then p.natH * p.scaleY
        else p.natW * p.scaleX)) ∧
    (∀ p, l.highestPage = some p → p ∈ l.pages ∧ ∀ q ∈ l.pages,
       (if (q.rotation + l.rotation) % 2 = 1 then q.natW * q.scaleX
        else q.natH * q.scaleY) ≤
       (if (p.rotation + l.rotation) % 2 = 1 then p.natW * p.scaleX
        else p.natH * p.scaleY)) := by
  refine ⟨?_, ?_, ?_, ?_⟩
  · cases hp : l.pages with
    | nil => simp [PageLayout.widestPage, PageLayout.count, hp]
    | cons r rs => simp [PageLayout.widestPage, PageLayout.count, hp]
  · cases hp : l.pages with
    | nil => simp [PageLayout.highestPage, PageLayout.count, hp]
    | cons r rs => simp [PageLayout.highestPage, PageLayout.count, hp]
  · intro p hsome
    cases hp : l.pages with
    | nil => simp [PageLayout.widestPage, PageLayout.count, hp] at hsome
    | cons r rs =>
      have heq : l.widestPage = some (pyMaxBy (l.widestKey) r rs) := by
        simp [PageLayout.widestPage, PageLayout.count, hp]
      rw [heq, Option.some.injEq] at hsome
      obtain ⟨hmem, hmax⟩ := pyMaxBy_spec (l.widestKey) r rs
      subst hsome
      refine ⟨hmem, ?_⟩
      intro q hq
      simpa [PageLayout.widestKey] using hmax q hq
  · intro p hsome
    cases hp : l.pages with
    | nil => simp [PageLayout.highestPage, PageLayout.count, hp] at hsome
    | cons r rs =>
      have heq : l.highestPage = some (pyMaxBy (l.highestKey) r rs) := by
        simp [PageLayout.highestPage, PageLayout.count, hp]
      rw [heq, Option.some.injEq] at hsome
      obtain ⟨hmem, hmax⟩ := pyMaxBy_spec (l.highestKey) r rs
      subst hsome
      refine ⟨hmem, ?_⟩
      intro q hq
      simpa [PageLayout.highestKey] using hmax q hq

/-- C4 witness: on the one-page fixture both queries return the page,
which is maximal for both keys. -/
theorem C4_extremal_pages_witness :
    layout1.widestPage = some pgA ∧ layout1.highestPage = some pgA ∧
    (pgA ∈ layout1.pages ∧ ∀ q ∈ layout1.pages,
       (if (q.rotation + layout1.rotation) % 2 = 1 then q.natH * q.scaleY
        else q.natW * q.scaleX) ≤
       (if (pgA.rotation + layout1.rotation) % 2 = 1 then
          pgA.natH * pgA.scaleY
        else pgA.natW * pgA.scaleX)) ∧
    (pgA ∈ layout1.pages ∧ ∀ q ∈ layout1.pages,
       (if (q.rotation + layout1.rotation) % 2 = 1 then q.natW * q.scaleX
        else q.natH * q.scaleY) ≤
       (if (pgA.rotation + layout1.rotation) % 2 = 1 then
          pgA.natW * pgA.scaleX
        else pgA.natH * pgA.scaleY)) :=
  ⟨rfl, rfl,
   (C4_extremal_pages layout1).2.2.1 pgA rfl,
   (C4_extremal_pages layout1).2.2.2 pgA rfl⟩

/-- `placeVert` preserves the number of pages. -/
lemma placeVert_length (s w : ℤ) :
    ∀ (top : ℤ) (qs : List Page),
      (placeVert s w top qs).length = qs.length := by
  intro top qs
  induction qs generalizing top with
  | nil => rfl
  | cons q qs ih => simp [placeVert, ih]

/-- `placeVert` preserves every page's computed width. -/
lemma placeVert_map_w (s w : ℤ) :
    ∀ (top : ℤ) (qs : List Page),
      (placeVert s w top qs).map Page.w = qs.map Page.w := by
  intro top qs
  induction qs generalizing top with
  | nil => rfl
  | cons q qs ih => simp [placeVert, ih]

/-- `placeVert` preserves every page's computed height. -/
lemma placeVert_map_h (s w : ℤ) :
    ∀ (top : ℤ) (qs : List Page),
      (placeVert s w top qs).map Page.h = qs.map Page.h := by
  intro top qs
  induction qs generalizing top with
  | nil => rfl
  | cons q qs ih => simp [placeVert, ih]

/-- The page `placeVert` puts at position `i`: the input page with its
horizontal offset truncated-halved within `w` and its vertical offset
the start cursor plus the accumulated heights-plus-spacing before it. -/
lemma placeVert_get (s w : ℤ) :
    ∀ (qs : List Page) (top : ℤ) (i : ℕ) (hi : i < qs.length),
      (placeVert s w top qs).get ⟨i, by rw [placeVert_length]; exact hi⟩ =
        { qs.get ⟨i, hi⟩ with
          posX := Int.tdiv (w - (qs.get ⟨i, hi⟩).w) 2,
          posY := top + ((qs.take i).map (fun q => q.h + s)).sum } := by
  intro qs
  induction qs with
  | nil =>
    intro top i hi
    exact absurd hi (by simp)
  | cons q qs ih =>
    intro top i hi
    cases i with
    | zero => simp [placeVert]
    | succ n =>
      have hn : n < qs.length := Nat.lt_of_succ_lt_succ hi
      have hrec := ih (top + q.h + s) n hn
      simp only [placeVert, List.get_cons_succ, List.take_succ_cons,
        List.map_cons, List.sum_cons] at hrec ⊢
      rw [hrec]
      congr 1
      ring

/-- Every member of a list is at most its Python `max(..., default=d)`. -/
lemma le_maxDefault (xs : List ℤ) (d x : ℤ) (hx : x ∈ xs) :
    x ≤ maxDefault xs d := by
  have key : ∀ (ys : List ℤ) (a : ℤ),
      a ≤ ys.foldl max a ∧ ∀ y ∈ ys, y ≤ ys.foldl max a := by
    intro ys
    induction ys with
    | nil => exact fun a => ⟨le_refl a, by simp⟩
    | cons y ys ih =>
      intro a
      constructor
      · show a ≤ List.foldl max (max a y) ys
        exact le_trans (le_max_left a y) (ih (max a y)).1
      · intro z hz
        show z ≤ List.foldl max (max a y) ys
        rcases List.mem_cons.mp hz with h | h
        · subst h
          exact le_trans (le_max_right a z) (ih (max a z)).1
        · exact (ih (max a y)).2 z h
  cases xs with
  | nil => cases hx
  | cons y ys =>
    rcases List.mem_cons.mp hx with h | h
    · exact h ▸ (key ys y).1
    · exact (key ys y).2 x h

/-- `placeHoriz` preserves the number of pages. -/
lemma placeHoriz_length (s h : ℤ) :
    ∀ (left : ℤ) (qs : List Page),
      (placeHoriz s h left qs).length = qs.length := by
  intro left qs
  induction qs generalizing left with
  | nil => rfl
  | cons q qs ih => simp [placeHoriz, ih]

/-- `computeSize` never touches the page list. -/
lemma computeSize_pages (l : PageLayout) : (l.computeSize).2.pages = l.pages :=
  rfl

/-- `update` preserves the number of pages. -/
lemma update_pages_length (l : PageLayout) :
    (l.update).2.pages.length = l.pages.length := by
  show ((l.updatePageSizes.updatePagePositions).computeSize).2.pages.length = _
  rw [computeSize_pages]
  show (l.updatePageSizes).positionedPages.length = _
  rw [PageLayout.positionedPages]
  split
  · rw [placeVert_length]
    simp [PageLayout.updatePageSizes]
  · rw [placeHoriz_length]
    simp [PageLayout.updatePageSizes]

/-- The pages produced by `update` on a Vertical layout are the sized
pages laid out by `placeVert` from the margin cursor within the
max-width-plus-margins extent. -/
lemma update_pages_vertical (l : PageLayout)
    (ho : l.orientation = Orientation.vertical) :
    (l.update).2.pages =
      placeVert l.spacing
        (maxDefault ((l.updatePageSizes.pages).map Page.w) 0 + l.margin * 2)
        l.margin (l.updatePageSizes.pages) := by
  show ((l.updatePageSizes.updatePagePositions).computeSize).2.pages = _
  rw [computeSize_pages]
  show (l.updatePageSizes).positionedPages = _
  rw [PageLayout.positionedPages,
    if_pos (show l.updatePageSizes.orientation = Orientation.vertical from ho)]
  rfl

/-- The pages produced by `update` on a Horizontal layout. -/
lemma update_pages_horizontal (l : PageLayout)
    (ho : ¬ l.orientation = Orientation.vertical) :
    (l.update).2.pages =
      placeHoriz l.spacing
        (maxDefault ((l.updatePageSizes.pages).map Page.h) 0 + l.margin * 2)
        l.margin (l.updatePageSizes.pages) := by
  show ((l.updatePageSizes.updatePagePositions).computeSize).2.pages = _
  rw [computeSize_pages]
  show (l.updatePageSizes).positionedPages = _
  rw [PageLayout.positionedPages,
    if_neg (show ¬ l.updatePageSizes.orientation = Orientation.vertical
      from ho)]
  rfl

/-- C2: after `update()` on a Vertical layout with non-negative margin
`m` and spacing `s`, page `i` sits at vertical offset
`m + Σ_{j<i} (h_j + s)` (heights being the pages' computed heights) and
at horizontal offset `⌊(extent - w_i) / 2⌋` where the extent is the
maximum computed page width (0 if empty) plus `2*m`. -/
theorem C2_vertical_stack_positions (l : PageLayout)
    (ho : l.orientation = Orientation.vertical) (hm : 0 ≤ l.margin)
    (i : ℕ) (hi : i < (l.update).2.pages.length) :
    ((l.update).2.pages.get ⟨i, hi⟩).posY =
      l.margin +
        (((l.update).2.pages.take i).map (fun p => p.h + l.spacing)).sum ∧
    ((l.update).2.pages.get ⟨i, hi⟩).posX =
      Int.fdiv
        ((maxDefault ((l.update).2.pages.map Page.w) 0 + 2 * l.margin)
          - ((l.update).2.pages.get ⟨i, hi⟩).w) 2 := by
  have hup := update_pages_vertical l ho
  have hlen : i < (l.updatePageSizes.pages).length := by
    rw [hup, placeVert_length] at hi
    exact hi
  have hget := List.get_of_eq hup ⟨i, hi⟩
  have hpv := placeVert_get l.spacing
    (maxDefault ((l.updatePageSizes.pages).map Page.w) 0 + l.margin * 2)
    (l.updatePageSizes.pages) l.margin i hlen
  have hmapeq : ∀ (xs : List Page),
      xs.map (fun p => p.h + l.spacing) =
        (xs.map Page.h).map (fun z => z + l.spacing) := by
    intro xs
    rw [List.map_map]
    rfl
  have hth : ((l.update).2.pages.take i).map Page.h =
      ((l.updatePageSizes.pages).take i).map Page.h := by
    rw [List.map_take, List.map_take, hup, placeVert_map_h]
  have hsum : ((l.update).2.pages.take i).map (fun p => p.h + l.spacing) =
      ((l.updatePageSizes.pages.take i)).map (fun q => q.h + l.spacing) := by
    rw [hmapeq, hmapeq, hth]
  have hwmax : maxDefault ((l.update).2.pages.map Page.w) 0 =
      maxDefault ((l.updatePageSizes.pages).map Page.w) 0 := by
    rw [hup, placeVert_map_w]
  have hwle : (l.updatePageSizes.pages.get ⟨i, hlen⟩).w ≤
      maxDefault ((l.updatePageSizes.pages).map Page.w) 0 :=
    le_maxDefault _ 0 _
      (List.mem_map_of_mem Page.w (List.get_mem _ _ _))
  constructor
  · rw [hget, hpv, hsum]
  · simp only [hget, hpv, hwmax]
    rw [Int.fdiv_eq_tdiv (by omega) (by omega)]
    congr 1
    ring

/-- The one-page fixture still holds one page after `update`. -/
lemma layout1_update_len : 0 < (layout1.update).2.pages.length := by
  rw [update_pages_length]
  decide

/-- C2 witness: on the one-page Vertical fixture, page 0 sits at
vertical offset `margin + 0` and is centred in the extent. -/
theorem C2_vertical_stack_positions_witness :
    layout1.orientation = Orientation.vertical ∧ 0 ≤ layout1.margin ∧
    (((layout1.update).2.pages.get ⟨0, layout1_update_len⟩).posY =
       layout1.margin + (((layout1.update).2.pages.take 0).map
         (fun p => p.h + layout1.spacing)).sum ∧
     ((layout1.update).2.pages.get ⟨0, layout1_update_len⟩).posX =
       Int.fdiv
         ((maxDefault ((layout1.update).2.pages.map Page.w) 0
            + 2 * layout1.margin)
           - ((layout1.update).2.pages.get ⟨0, layout1_update_len⟩).w) 2) :=
  ⟨rfl, by decide,
   C2_vertical_stack_positions layout1 rfl (by decide) 0 layout1_update_len⟩

/-- `placeHoriz` preserves every page's computed width. -/
lemma placeHoriz_map_w (s h : ℤ) :
    ∀ (left : ℤ) (qs : List Page),
      (placeHoriz s h left qs).map Page.w = qs.map Page.w := by
  intro left qs
  induction qs generalizing left with
  | nil => rfl
  | cons q qs ih => simp [placeHoriz, ih]

/-- `placeHoriz` preserves every page's computed height. -/
lemma placeHoriz_map_h (s h : ℤ) :
    ∀ (left : ℤ) (qs : List Page),
      (placeHoriz s h left qs).map Page.h = qs.map Page.h := by
  intro left qs
  induction qs generalizing left with
  | nil => rfl
  | cons q qs ih => simp [placeHoriz, ih]

/-- The page sizing step is idempotent: it reads only the page's
intrinsic attributes, which it preserves. -/
lemma pcs_idem (l : PageLayout) (p : Page) :
    Page.computeSizeFromLayout l (Page.computeSizeFromLayout l p) =
      Page.computeSizeFromLayout l p := by
  by_cases hrot : (p.rotation + l.rotation) % 2 = 1
  · simp [Page.computeSizeFromLayout, hrot]
  · simp [Page.computeSizeFromLayout, hrot]

/-- The page sizing step commutes with repositioning: it never reads or
writes the position. -/
lemma pcs_setPos (l : PageLayout) (p : Page) (a b : ℤ) :
    Page.computeSizeFromLayout l { p with posX := a, posY := b } =
      { Page.computeSizeFromLayout l p with posX := a, posY := b } := by
  by_cases hrot : (p.rotation + l.rotation) % 2 = 1
  · simp [Page.computeSizeFromLayout, hrot]
  · simp [Page.computeSizeFromLayout, hrot]

/-- Re-sizing the output of `placeVert` is a no-op when every input
page is already a fixed point of the sizing step. -/
lemma placeVert_map_pcs (l : PageLayout) (s w : ℤ) :
    ∀ (top : ℤ) (qs : List Page),
      (∀ q ∈ qs, Page.computeSizeFromLayout l q = q) →
      (placeVert s w top qs).map (Page.computeSizeFromLayout l) =
        placeVert s w top qs := by
  intro top qs
  induction qs generalizing top with
  | nil => intro _; rfl
  | cons q qs ih =>
    intro hfix
    have hq := hfix q (List.mem_cons_self _ _)
    have hqs := fun r hr => hfix r (List.mem_cons_of_mem _ hr)
    simp only [placeVert, List.map_cons, pcs_setPos, hq, ih _ hqs]

/-- Re-sizing the output of `placeHoriz` is a no-op when every input
page is already a fixed point of the sizing step. -/
lemma placeHoriz_map_pcs (l : PageLayout) (s h : ℤ) :
    ∀ (left : ℤ) (qs : List Page),
      (∀ q ∈ qs, Page.computeSizeFromLayout l q = q) →
      (placeHoriz s h left qs).map (Page.computeSizeFromLayout l) =
        placeHoriz s h left qs := by
  intro left qs
  induction qs generalizing left with
  | nil => intro _; rfl
  | cons q qs ih =>
    intro hfix
    have hq := hfix q (List.mem_cons_self _ _)
    have hqs := fun r hr => hfix r (List.mem_cons_of_mem _ hr)
    simp only [placeHoriz, List.map_cons, pcs_setPos, hq, ih _ hqs]

/-- `placeVert` is idempotent: positions are recomputed from the
computed sizes, which it preserves. -/
lemma placeVert_idem (s w : ℤ) :
    ∀ (top : ℤ) (qs : List Page),
      placeVert s w top (placeVert s w top qs) = placeVert s w top qs := by
  intro top qs
  induction qs generalizing top with
  | nil => rfl
  | cons q qs ih => simp [placeVert, ih]

/-- `placeHoriz` is idempotent. -/
lemma placeHoriz_idem (s h : ℤ) :
    ∀ (left : ℤ) (qs : List Page),
      placeHoriz s h left (placeHoriz s h left qs) = placeHoriz s h left qs := by
  intro left qs
  induction qs generalizing left with
  | nil => rfl
  | cons q qs ih => simp [placeHoriz, ih]

/-- Running the size-and-position phases again on the state left by
`update` reproduces exactly the same page list: sizing is a fixed point
on already-sized pages and positioning recomputes identical positions
from the unchanged sizes. -/
lemma update_pages_stable (l : PageLayout) :
    ((l.update).2.updatePageSizes.updatePagePositions).pages =
      (l.update).2.pages := by
  have hpcs : Page.computeSizeFromLayout (l.update).2 =
      Page.computeSizeFromLayout l := rfl
  have hfix : ∀ q ∈ l.updatePageSizes.pages,
      Page.computeSizeFromLayout l q = q := by
    intro q hq
    obtain ⟨p, _, rfl⟩ := List.mem_map.mp
      (by simpa [PageLayout.updatePageSizes] using hq)
    exact pcs_idem l p
  by_cases ho : l.orientation = Orientation.vertical
  · have hup := update_pages_vertical l ho
    have h1 : (l.update).2.updatePageSizes.pages = (l.update).2.pages := by
      show ((l.update).2.pages).map (Page.computeSizeFromLayout (l.update).2)
        = (l.update).2.pages
      rw [hpcs, hup, placeVert_map_pcs l _ _ _ _ hfix]
    show ((l.update).2.updatePageSizes).positionedPages = _
    rw [PageLayout.positionedPages,
      if_pos (show (l.update).2.updatePageSizes.orientation =
        Orientation.vertical from ho)]
    show placeVert l.spacing
        (maxDefault (((l.update).2.updatePageSizes.pages).map Page.w) 0
          + l.margin * 2)
        l.margin ((l.update).2.updatePageSizes.pages) = (l.update).2.pages
    rw [h1, hup, placeVert_map_w, placeVert_idem]
  · have hup := update_pages_horizontal l ho
    have h1 : (l.update).2.updatePageSizes.pages = (l.update).2.pages := by
      show ((l.update).2.pages).map (Page.computeSizeFromLayout (l.update).2)
        = (l.update).2.pages
      rw [hpcs, hup, placeHoriz_map_pcs l _ _ _ _ hfix]
    show ((l.update).2.updatePageSizes).positionedPages = _
    rw [PageLayout.positionedPages,
      if_neg (show ¬ (l.update).2.updatePageSizes.orientation =
        Orientation.vertical from ho)]
    show placeHoriz l.spacing
        (maxDefault (((l.update).2.updatePageSizes.pages).map Page.h) 0
          + l.margin * 2)
        l.margin ((l.update).2.updatePageSizes.pages) = (l.update).2.pages
    rw [h1, hup, placeHoriz_map_h, placeHoriz_idem]

/-- Folding the Qt union over page rects with positive sizes, starting
from a normalised accumulator, gives componentwise min/max of the
corner coordinates. -/
lemma foldl_unite_normalized :
    ∀ (ps : List Page) (acc : QRectI),
      acc.x1 ≤ acc.x2 → acc.y1 ≤ acc.y2 →
      (∀ p ∈ ps, 0 < p.w ∧ 0 < p.h) →
      ps.foldl (fun r p => r.unite p.rect) acc =
        ⟨(ps.map Page.posX).foldl min acc.x1,
         (ps.map Page.posY).foldl min acc.y1,
         (ps.map (fun q => q.posX + q.w - 1)).foldl max acc.x2,
         (ps.map (fun q => q.posY + q.h - 1)).foldl max acc.y2⟩ := by
  intro ps
  induction ps with
  | nil =>
    intro acc _ _ _
    rfl
  | cons p ps ih =>
    intro acc hx hy hall
    obtain ⟨hw, hh⟩ := hall p (List.mem_cons_self _ _)
    have ha : acc.isNull = false := by
      simp only [QRectI.isNull, decide_eq_false_iff_not, not_and]
      omega
    have hb : (⟨p.posX, p.posY, p.posX + p.w - 1, p.posY + p.h - 1⟩
        : QRectI).isNull = false := by
      simp only [QRectI.isNull, decide_eq_false_iff_not, not_and]
      omega
    have hc1 : ¬(acc.x2 - acc.x1 + 1 < 0) := by omega
    have hc2 : ¬(acc.y2 - acc.y1 + 1 < 0) := by omega
    have hc3 : ¬(p.posX + p.w - 1 - p.posX + 1 < 0) := by omega
    have hc4 : ¬(p.posY + p.h - 1 - p.posY + 1 < 0) := by omega
    have hu : acc.unite p.rect =
        ⟨min acc.x1 p.posX, min acc.y1 p.posY,
         max acc.x2 (p.posX + p.w - 1), max acc.y2 (p.posY + p.h - 1)⟩ := by
      simp [QRectI.unite, ha, hb, Page.rect, hc1, hc2, hc3, hc4]
    have hx' : min acc.x1 p.posX ≤ max acc.x2 (p.posX + p.w - 1) :=
      le_trans (min_le_left _ _) (le_trans hx (le_max_left _ _))
    have hy' : min acc.y1 p.posY ≤ max acc.y2 (p.posY + p.h - 1) :=
      le_trans (min_le_left _ _) (le_trans hy (le_max_left _ _))
    have hrest : ∀ q ∈ ps, 0 < q.w ∧ 0 < q.h :=
      fun q hq => hall q (List.mem_cons_of_mem _ hq)
    calc (p :: ps).foldl (fun r q => r.unite q.rect) acc
        = ps.foldl (fun r q => r.unite q.rect) (acc.unite p.rect) := rfl
      _ = _ := by
          rw [hu, ih _ hx' hy' hrest]
          rfl

/-- `computeSize` stores exactly the spec's bounding size: the union of
all page rects expanded by the margin on every side, provided every
page has a positive computed size. -/
lemma computeSize_spec (l : PageLayout)
    (hpos : ∀ p ∈ l.pages, 0 < p.w ∧ 0 < p.h) :
    (l.computeSize).2.size = l.specBoundingSize := by
  cases hp : l.pages with
  | nil =>
    rw [computeSize_nil l hp]
    simp [PageLayout.setSize, PageLayout.specBoundingSize, hp]
  | cons q qs =>
    obtain ⟨hqw, hqh⟩ : 0 < q.w ∧ 0 < q.h := by
      apply hpos
      rw [hp]
      exact List.mem_cons_self _ _
    have hqs : ∀ p ∈ qs, 0 < p.w ∧ 0 < p.h := by
      intro p hp'
      apply hpos
      rw [hp]
      exact List.mem_cons_of_mem _ hp'
    have hfold := foldl_unite_normalized qs q.rect
      (by simp only [Page.rect]; omega)
      (by simp only [Page.rect]; omega) hqs
    have hcs : (l.computeSize).2.size =
        ((l.pages.foldl (fun r p => r.unite p.rect)
            QRectI.nullRect).adjusted (-l.margin) (-l.margin)
            l.margin l.margin).size := rfl
    have h0 : l.pages.foldl (fun r p => r.unite p.rect) QRectI.nullRect =
        qs.foldl (fun r p => r.unite p.rect) q.rect := by
      rw [hp]
      rfl
    rw [hcs, h0, hfold]
    simp only [PageLayout.specBoundingSize, hp, QRectI.adjusted,
      QRectI.size, Page.rect, QSizeI.mk.injEq]
    constructor <;> ring

/-- C1: `computeSize()` returns true exactly when the newly computed
size (the union of all page rects expanded by the margin on every side,
which it stores) differs from the previously stored size, and a second
`update()` with no intervening mutation reports no change. -/
theorem C1_computeSize_change_detection (l : PageLayout) :
    ((l.computeSize).1 = true ↔ (l.computeSize).2.size ≠ l.size) ∧
    ((∀ p ∈ l.pages, 0 < p.w ∧ 0 < p.h) →
       (l.computeSize).2.size = l.specBoundingSize) ∧
    ((l.update).2.update).1 = false := by
  refine ⟨?_, computeSize_spec l, ?_⟩
  · have h1 : (l.computeSize).1 =
        decide (l.size ≠ (l.computeSize).2.size) := rfl
    rw [h1]
    simp [ne_comm]
  · have hstab := update_pages_stable l
    have h1 : ((l.update).2.update).1 =
        decide ((l.update).2.size ≠
          ((((l.update).2.updatePageSizes.updatePagePositions).pages.foldl
              (fun r p => r.unite p.rect) QRectI.nullRect).adjusted
              (-(l.update).2.margin) (-(l.update).2.margin)
              (l.update).2.margin (l.update).2.margin).size) := rfl
    rw [h1, hstab]
    have h2 : (l.update).2.size =
        ((((l.update).2.pages).foldl (fun r p => r.unite p.rect)
            QRectI.nullRect).adjusted (-(l.update).2.margin)
            (-(l.update).2.margin) (l.update).2.margin
            (l.update).2.margin).size := rfl
    rw [← h2]
    simp

/-- C1 witness: on a layout holding one positioned 10×20 page, the
first `computeSize` reports a change, stores the spec's bounding size,
and a repeated `update` reports none. -/
theorem C1_computeSize_change_detection_witness :
    (∀ p ∈ layoutSized.pages, 0 < p.w ∧ 0 < p.h) ∧
    ((layoutSized.computeSize).1 = true ↔
       (layoutSized.computeSize).2.size ≠ layoutSized.size) ∧
    (layoutSized.computeSize).2.size = layoutSized.specBoundingSize ∧
    ((layoutSized.update).2.update).1 = false :=
  ⟨by decide,
   (C1_computeSize_change_detection layoutSized).1,
   (C1_computeSize_change_detection layoutSized).2.1 (by decide),
   (C1_computeSize_change_detection layoutSized).2.2⟩

/-- A mode with the `FitWidth` or `FitHeight` bit set is non-zero. -/
lemma mode_ne_zero_of_bit {mode b : ℕ} (h : mode &&& b ≠ 0) : mode ≠ 0 := by
  rintro rfl
  simp at h

/-- C3: for a non-empty layout, `fit` with only `FitWidth` applies
`widestPage().zoomForWidth(self, width - 2*margin)` as the zoom factor,
with only `FitHeight` applies
`highestPage().zoomForHeight(self, height - 2*margin)`, and with both
bits applies the minimum of the two independently computed factors. -/
theorem C3_fit_zoom_factors (l : PageLayout) (size : QSizeI) (mode : ℕ)
    (wp hpg : Page) (hne : l.pages ≠ [])
    (hw : l.widestPage = some wp) (hh : l.highestPage = some hpg) :
    (mode &&& FitWidth ≠ 0 → mode &&& FitHeight = 0 →
       l.fit size mode = Except.ok
         (l.setZoomFactor (wp.zoomForWidth l (size.w - l.margin * 2)))) ∧
    (mode &&& FitHeight ≠ 0 → mode &&& FitWidth = 0 →
       l.fit size mode = Except.ok
         (l.setZoomFactor (hpg.zoomForHeight l (size.h - l.margin * 2)))) ∧
    (mode &&& FitWidth ≠ 0 → mode &&& FitHeight ≠ 0 →
       l.fit size mode = Except.ok
         (l.setZoomFactor
           (min (wp.zoomForWidth l (size.w - l.margin * 2))
                (hpg.zoomForHeight l (size.h - l.margin * 2))))) := by
  have hzw : l.zoomFitWidth size.w =
      wp.zoomForWidth l (size.w - l.margin * 2) := by
    rw [PageLayout.zoomFitWidth, hw]
  have hzh : l.zoomFitHeight size.h =
      hpg.zoomForHeight l (size.h - l.margin * 2) := by
    rw [PageLayout.zoomFitHeight, hh]
  refine ⟨fun h1 h2 => ?_, fun h1 h2 => ?_, fun h1 h2 => ?_⟩
  · simp [PageLayout.fit, mode_ne_zero_of_bit h1, hne, h1, h2,
      pyMinList, Except.map, hzw]
  · simp [PageLayout.fit, mode_ne_zero_of_bit h1, hne, h1, h2,
      pyMinList, Except.map, hzh]
  · simp [PageLayout.fit, mode_ne_zero_of_bit h1, hne, h1, h2,
      pyMinList, Except.map, hzw, hzh]

/-- C3 witness: fitting the one-page fixture into a 300×400 target with
both bits set applies the minimum of the two factors. -/
theorem C3_fit_zoom_factors_witness :
    layout1.pages ≠ [] ∧ layout1.widestPage = some pgA ∧
    layout1.highestPage = some pgA ∧ (3 &&& FitWidth ≠ 0) ∧
    (3 &&& FitHeight ≠ 0) ∧
    layout1.fit ⟨300, 400⟩ 3 = Except.ok
      (layout1.setZoomFactor
        (min (pgA.zoomForWidth layout1 (300 - layout1.margin * 2))
             (pgA.zoomForHeight layout1 (400 - layout1.margin * 2)))) :=
  ⟨List.cons_ne_nil pgA [], rfl, rfl, by decide, by decide,
   (C3_fit_zoom_factors layout1 ⟨300, 400⟩ 3 pgA pgA
     (List.cons_ne_nil pgA []) rfl rfl).2.2 (by decide) (by decide)⟩

/-- C7: whenever `fit` returns normally it changes at most the zoom
factor — pages, stored size, margin, spacing, scale, dpi, rotation and
orientation are untouched — and with an empty collection or a zero mode
it is a complete no-op returning the layout unchanged rather than an
error. -/
theorem C7_fit_frame (l : PageLayout) (size : QSizeI) (mode : ℕ) :
    (∀ l', l.fit size mode = Except.ok l' →
       l'.pages = l.pages ∧ l'.size = l.size ∧ l'.margin = l.margin ∧
       l'.spacing = l.spacing ∧ l'.scaleX = l.scaleX ∧
       l'.scaleY = l.scaleY ∧ l'.dpiX = l.dpiX ∧ l'.dpiY = l.dpiY ∧
       l'.rotation = l.rotation ∧ l'.orientation = l.orientation) ∧
    (l.pages = [] ∨ mode = 0 → l.fit size mode = Except.ok l) := by
  by_cases hc : mode ≠ 0 ∧ l.pages ≠ []
  · constructor
    · intro l' hok
      rw [PageLayout.fit, if_pos hc] at hok
      simp only [] at hok
      cases hz : pyMinList
          ((if mode &&& FitWidth ≠ 0 then [l.zoomFitWidth size.w]
            else []) ++
           (if mode &&& FitHeight ≠ 0 then [l.zoomFitHeight size.h]
            else [])) with
      | error e =>
        rw [hz] at hok
        simp [Except.map] at hok
      | ok z =>
        rw [hz] at hok
        simp only [Except.map, Except.ok.injEq] at hok
        subst hok
        exact ⟨rfl, rfl, rfl, rfl, rfl, rfl, rfl, rfl, rfl, rfl⟩
    · intro h
      rcases h with h | h
      · exact absurd h hc.2
      · exact absurd h hc.1
  · have hfit : l.fit size mode = Except.ok l := by
      rw [PageLayout.fit, if_neg hc]
    constructor
    · intro l' hok
      rw [hfit, Except.ok.injEq] at hok
      subst hok
      exact ⟨rfl, rfl, rfl, rfl, rfl, rfl, rfl, rfl, rfl, rfl⟩
    · intro _
      exact hfit

/-- C7 witness: fitting the empty fresh layout with a zero mode is a
no-op, and the conclusion instantiates at a returned layout. -/
theorem C7_fit_frame_witness :
    PageLayout.init.fit ⟨300, 400⟩ 0 = Except.ok PageLayout.init ∧
    (PageLayout.init.pages = PageLayout.init.pages ∧
     PageLayout.init.size = PageLayout.init.size ∧
     PageLayout.init.margin = PageLayout.init.margin ∧
     PageLayout.init.spacing = PageLayout.init.spacing ∧
     PageLayout.init.scaleX = PageLayout.init.scaleX ∧
     PageLayout.init.scaleY = PageLayout.init.scaleY ∧
     PageLayout.init.dpiX = PageLayout.init.dpiX ∧
     PageLayout.init.dpiY = PageLayout.init.dpiY ∧
     PageLayout.init.rotation = PageLayout.init.rotation ∧
     PageLayout.init.orientation = PageLayout.init.orientation) :=
  ⟨(C7_fit_frame PageLayout.init ⟨300, 400⟩ 0).2 (Or.inr rfl),
   (C7_fit_frame PageLayout.init ⟨300, 400⟩ 0).1 PageLayout.init
     ((C7_fit_frame PageLayout.init ⟨300, 400⟩ 0).2 (Or.inr rfl))⟩

/-- C5 (evaluation at the failing input): on a one-page layout,
`pop()` without an index passes the `None` default to `list.pop` and
raises `TypeError` instead of removing the last page, while `pop(0)`
with a valid index does remove and return the page at that index. -/
theorem C5_pop_default_raises_typeError :
    layout1.pop none = Except.error PyErr.typeError ∧
    layout1.pop (some 0) =
      Except.ok (pgA, { layout1 with pages := [] }) := by
  constructor <;> rfl

end Qpv
